import Mathlib

/-!
# Verification of the tochka-docker ledger service (`src/app/main.py`)

A shallow embedding of the account-ledger microservice: JSON request
bodies, Python subscript semantics (`KeyError` vs `TypeError`), the
account store (SQLite table `users` keyed by `uuid`), the request
handlers `handle_status`, `handle_add`, `handle_subtract`, the
settlement loop `auto_update_hold`, the keyed lock registry
(`app['locked_rows']`), and an interleaving model of concurrent
`handle_add` critical sections.
-/

namespace Tochka

mutual

/-- JSON values, as produced by Python's `json.loads`.  (Float literals
are omitted: no claim depends on them.) -/
inductive Json where
  | null
  | bool (b : Bool)
  | int (n : Int)
  | str (s : String)
  | arr (xs : JsonArr)
  | obj (fields : JsonObj)
deriving DecidableEq

/-- Elements of a JSON array. -/
inductive JsonArr where
  | nil
  | cons (hd : Json) (tl : JsonArr)
deriving DecidableEq

/-- Key/value fields of a JSON object, in textual order. -/
inductive JsonObj where
  | nil
  | cons (k : String) (v : Json) (tl : JsonObj)
deriving DecidableEq

end

/-- Key lookup in a JSON object.  Python's `json.loads` builds the dict
by successive assignment, so on duplicate keys the LAST occurrence
wins; the recursion below mirrors that. -/
def JsonObj.lookup : JsonObj → String → Option Json
  | .nil, _ => none
  | .cons k v tl, key =>
    match tl.lookup key with
    | some r => some r
    | none => if k = key then some v else none

/-- Result of a Python subscript expression `x[k]` with a string key:
either a value, a `KeyError` (dict without the key), or a `TypeError`
(subscripting a non-dict with a string key). -/
inductive Subscript where
  | ok (v : Json)
  | keyError
  | typeError
deriving DecidableEq

/-- Python `x[k]` for a string key `k`: on a dict, value or `KeyError`;
on anything else (`None`, int, bool, str, list), `TypeError`. -/
def Json.getItem : Json → String → Subscript
  | .obj fields, k =>
    match fields.lookup k with
    | some v => .ok v
    | none => .keyError
  | _, _ => .typeError

/-- Python's `isinstance(v, int)`.  `bool` is a subclass of `int` in
Python, so JSON booleans pass this check. -/
def isPyInt : Json → Bool
  | .int _ => true
  | .bool _ => true
  | _ => false

/-- The integer value Python arithmetic sees: `True` is `1`, `False` is
`0`.  Only meaningful when `isPyInt` holds. -/
def pyIntVal : Json → Int
  | .int n => n
  | .bool b => if b then 1 else 0
  | _ => 0

/-- One row of the `users` table, minus the key column `uuid`:
`name`, `balance`, `hold`, `status` (`bool(status)` as read by
`get_user_data_by_uuid`). -/
structure Account where
  name : String
  balance : Int
  hold : Int
  status : Bool
deriving DecidableEq

/-- The `users` table: a map from the (unique) `uuid` key to the rest of
the row.  The Python code uses the raw JSON value from the request as
the key, so keys are `Json`. -/
def Store := Json → Option Account

/-- Function `get_user_data_by_uuid`: `SELECT * FROM users WHERE uuid=?`;
`none` models the `UserNotFound('uuid not found')` raise. -/
def get_user_data_by_uuid (s : Store) (uuid : Json) : Option Account :=
  s uuid

/-- One field assignment of the `UPDATE users SET ...` statement built
by `update_user_data`. -/
inductive FieldUpd where
  | balance (v : Int)
  | hold (v : Int)
  | name (v : String)
  | status (v : Bool)
deriving DecidableEq

/-- Apply one `SET field=?` assignment to a row. -/
def applyUpd (a : Account) : FieldUpd → Account
  | .balance v => { a with balance := v }
  | .hold v => { a with hold := v }
  | .name v => { a with name := v }
  | .status v => { a with status := v }

/-- Function `update_user_data`: `UPDATE users SET k1=?, k2=?, ... WHERE uuid=?`
followed by `commit`.  Only rows whose key equals `uuid` are touched;
if the key is absent the statement matches no row and the store is
unchanged. -/
def update_user_data (s : Store) (uuid : Json) (params : List FieldUpd) : Store :=
  fun u => if u = uuid then (s u).map (fun a => params.foldl applyUpd a) else s u

/-- Function `subtraction_is_possible(balance, hold, value)`:
`hold + value <= balance`. -/
def subtraction_is_possible (balance hold value : Int) : Bool :=
  hold + value ≤ balance

/-- The HTTP response produced by `make_response`.  `httpStatus` is the
transport-level status of `web.json_response` (which is called with no
`status` argument); `status` is the `'status'` field of the JSON body. -/
structure Response where
  httpStatus : Nat
  status : Nat
  result : Bool
  addition : Json
  description : Json
deriving DecidableEq

/-- Function `make_response(status, result, addition, description)`: builds the
response envelope and returns `web.json_response(response_obj)`, whose
transport status defaults to 200. -/
def make_response (status : Nat) (result : Bool) (addition description : Json) : Response :=
  { httpStatus := 200, status := status, result := result,
    addition := addition, description := description }

/-- Function `make_user_not_found_response(err)`. -/
def make_user_not_found_response (err : String) : Response :=
  make_response 404 false (.obj (.cons "reason" (.str err) .nil)) (.obj .nil)

/-- Function `make_bad_request_response(err)`: the reason is always the literal
string `'bad request'`. -/
def make_bad_request_response : Response :=
  make_response 400 false (.obj (.cons "reason" (.str "bad request") .nil)) (.obj .nil)

/-- Function `make_operation_not_possible_response(err)`. -/
def make_operation_not_possible_response (err : String) : Response :=
  make_response 403 false (.obj (.cons "reason" (.str err) .nil)) (.obj .nil)

/-- Both `handle_ping` and the success path of `handle_add`/`handle_subtract`
both return this response. -/
def make_ok_response : Response :=
  make_response 200 true (.obj .nil) (.obj .nil)

/-- What a handler does at the Python level: return a response, or let
an uncaught `TypeError` escape (only `KeyError`, `JSONDecodeError` and
`AssertionError` are caught around the body parsing). -/
inductive HandlerOutcome where
  | resp (r : Response)
  | typeError
deriving DecidableEq

/-- Result of running a mutating handler: its outcome, the store after
the call, and the list of `update_user_data` calls it performed (each
recorded as the `WHERE uuid=?` key with the `SET` field list). -/
structure HandlerResult where
  outcome : HandlerOutcome
  store : Store
  updates : List (Json × List FieldUpd)

/-- Parsing phase shared by `handle_add` and `handle_subtract`:
`json.loads` (failure = `JSONDecodeError`), then
`request_data['addition']['uuid']`, `request_data['addition']['value']`,
then `assert isinstance(value, int) and value >= 0`.
`KeyError`/`JSONDecodeError`/`AssertionError` are caught (bad request);
`TypeError` from subscripting a non-dict is not. -/
inductive ParseResult where
  | ok (uuid : Json) (value : Json)
  | badRequest
  | typeError
deriving DecidableEq

/-- The parse of `handle_add`/`handle_subtract`; `body = none` models
text that `json.loads` rejects. -/
def parse_add (body : Option Json) : ParseResult :=
  match body with
  | none => .badRequest
  | some j =>
    match j.getItem "addition" with
    | .typeError => .typeError
    | .keyError => .badRequest
    | .ok ad =>
      match ad.getItem "uuid" with
      | .typeError => .typeError
      | .keyError => .badRequest
      | .ok uuid =>
        match ad.getItem "value" with
        | .typeError => .typeError
        | .keyError => .badRequest
        | .ok value =>
          if isPyInt value && decide (pyIntVal value ≥ 0) then .ok uuid value
          else .badRequest

/-- The body of `handle_add` after parsing, i.e. the credit operation
run under the per-uuid lock: read the row, fail `UserNotFound` if
absent, fail `OperationNotPossible('status is inactive')` if inactive,
else `balance += value` and persist `{'balance': balance}`. -/
def credit_op (s : Store) (uuid : Json) (value : Int) : HandlerResult :=
  match get_user_data_by_uuid s uuid with
  | none => ⟨.resp (make_user_not_found_response "uuid not found"), s, []⟩
  | some a =>
    if a.status = false then
      ⟨.resp (make_operation_not_possible_response "status is inactive"), s, []⟩
    else
      let balance := a.balance + value
      ⟨.resp make_ok_response,
       update_user_data s uuid [.balance balance],
       [(uuid, [.balance balance])]⟩

/-- The body of `handle_subtract` after parsing, i.e. the reserve
operation run under the per-uuid lock: read the row, the same absent /
inactive checks as credit, then `subtraction_is_possible`; on failure
`OperationNotPossible('balance too low')`, else `hold += value` and
persist `{'hold': hold}`. -/
def reserve_op (s : Store) (uuid : Json) (value : Int) : HandlerResult :=
  match get_user_data_by_uuid s uuid with
  | none => ⟨.resp (make_user_not_found_response "uuid not found"), s, []⟩
  | some a =>
    if a.status = false then
      ⟨.resp (make_operation_not_possible_response "status is inactive"), s, []⟩
    else if subtraction_is_possible a.balance a.hold value = false then
      ⟨.resp (make_operation_not_possible_response "balance too low"), s, []⟩
    else
      let hold := a.hold + value
      ⟨.resp make_ok_response,
       update_user_data s uuid [.hold hold],
       [(uuid, [.hold hold])]⟩

/-- Handler `handle_add(request)`. -/
def handle_add (s : Store) (body : Option Json) : HandlerResult :=
  match parse_add body with
  | .typeError => ⟨.typeError, s, []⟩
  | .badRequest => ⟨.resp make_bad_request_response, s, []⟩
  | .ok uuid value => credit_op s uuid (pyIntVal value)

/-- Handler `handle_subtract(request)`. -/
def handle_subtract (s : Store) (body : Option Json) : HandlerResult :=
  match parse_add body with
  | .typeError => ⟨.typeError, s, []⟩
  | .badRequest => ⟨.resp make_bad_request_response, s, []⟩
  | .ok uuid value => reserve_op s uuid (pyIntVal value)

/-- Handler `handle_status(request)`: parses only `addition.uuid` (catching
`KeyError` and `JSONDecodeError`), reads the row with no lock, and
never writes. -/
def handle_status (s : Store) (body : Option Json) : HandlerOutcome :=
  match body with
  | none => .resp make_bad_request_response
  | some j =>
    match j.getItem "addition" with
    | .typeError => .typeError
    | .keyError => .resp make_bad_request_response
    | .ok ad =>
      match ad.getItem "uuid" with
      | .typeError => .typeError
      | .keyError => .resp make_bad_request_response
      | .ok uuid =>
        match get_user_data_by_uuid s uuid with
        | none => .resp (make_user_not_found_response "uuid not found")
        | some a =>
          .resp (make_response 200 true
            (.obj (.cons "balance" (.int a.balance)
                  (.cons "hold" (.int a.hold)
                  (.cons "status" (.bool a.status) .nil))))
            (.obj .nil))

/-- Handler `handle_ping(request)`. -/
def handle_ping : HandlerOutcome :=
  .resp make_ok_response

/-! ## The settlement loop `auto_update_hold`

`while True: sleep(600); execute('UPDATE users SET balance=balance-hold,
hold=0'); commit()`.  The `UPDATE` is a single bulk statement touching
every row, modelled as one `Store → Store` function. -/

/-- The effect of the single bulk statement
`UPDATE users SET balance=balance-hold, hold=0` on the whole table. -/
def settlement_tick (s : Store) : Store :=
  fun u => (s u).map (fun a => { a with balance := a.balance - a.hold, hold := 0 })

/-- The scheduler loop of `auto_update_hold`, run for a finite prefix of
scheduled intervals.  Each list element is the outcome of that
interval's `execute`/`commit` (`true` = the store call succeeds,
`false` = it raises a store error).  The Python loop body has no
`try`/`except` and no logging, so a raise propagates out of the
function: the returned triple is (final store, number of ticks actually
applied, whether the loop terminated by an escaped exception).
Scheduled intervals after a failure never run. -/
def auto_update_hold : List Bool → Store → Store × Nat × Bool
  | [], s => (s, 0, false)
  | ok :: rest, s =>
    if ok then
      let r := auto_update_hold rest (settlement_tick s)
      (r.1, r.2.1 + 1, r.2.2)
    else (s, 0, true)

/-! ## The keyed lock registry `app['locked_rows']`

`locked_rows` is a dict mapping a uuid to a pair
`(asyncio.Lock(), counter)`.  `handle_add`/`handle_subtract` run, with
no `await` in between (hence atomically on the single-threaded event
loop):

* before the `try`:
  `lock, counter = locked_rows.get(uuid, (asyncio.Lock(), 0))`
  `locked_rows[uuid] = (lock, counter+1)`                (`regEnter`);
* in the `finally` (thus on success, `UserNotFound` and
  `OperationNotPossible` alike):
  `lock, count = locked_rows[uuid]`
  `if count == 1: del locked_rows[uuid]`
  `else: locked_rows[uuid] = (lock, count-1)`            (`regExit`).

Lock objects are modelled by allocation numbers (`lockId`); the ghost
list `inflight` records which operations are between their enter and
their exit, with the lock object each one captured at enter. -/

/-- One entry of `locked_rows`: key, identity of the `asyncio.Lock`
object, and the interest counter. -/
structure RegEntry where
  key : Json
  lockId : Nat
  count : Nat
deriving DecidableEq

/-- Ghost record of one in-flight operation: its id, the uuid it works
on, and the lock object it obtained at enter. -/
structure OpRef where
  op : Nat
  key : Json
  lockId : Nat
deriving DecidableEq

/-- Dict lookup `locked_rows.get(k)` (first entry with the key; the
invariant keeps keys unique, as a Python dict does by construction). -/
def regFind (r : List RegEntry) (k : Json) : Option RegEntry :=
  r.find? (fun e => e.key = k)

/-- Dict assignment `locked_rows[k] = (l, c)`: replace the entry in
place if present, append otherwise. -/
def regSet : List RegEntry → Json → Nat → Nat → List RegEntry
  | [], k, l, c => [⟨k, l, c⟩]
  | e :: tl, k, l, c => if e.key = k then ⟨k, l, c⟩ :: tl else e :: regSet tl k l c

/-- Deletion `del locked_rows[k]`. -/
def regRemove : List RegEntry → Json → List RegEntry
  | [], _ => []
  | e :: tl, k => if e.key = k then tl else e :: regRemove tl k

/-- Number of in-flight operations whose key is `k`. -/
def countInflight (fl : List OpRef) (k : Json) : Nat :=
  (fl.filter (fun t => t.key = k)).length

/-- The in-flight record of operation `op`, if it has entered. -/
def findOp (fl : List OpRef) (op : Nat) : Option OpRef :=
  fl.find? (fun t => t.op = op)

/-- Remove operation `op` from the in-flight ghost list. -/
def removeOp : List OpRef → Nat → List OpRef
  | [], _ => []
  | t :: tl, op => if t.op = op then tl else t :: removeOp tl op

/-- State of the registry: the dict, the ghost in-flight list, and the
next fresh lock-object allocation number. -/
structure RegState where
  reg : List RegEntry
  inflight : List OpRef
  nextLock : Nat

/-- The bookkeeping before the `try`: evaluate the `.get` default
(allocating a fresh `asyncio.Lock()` eagerly, used only if the key is
absent), then store `(lock, counter+1)`.  An `op` id already in flight
is ignored, keeping ghost op ids unique. -/
def regEnter (s : RegState) (op : Nat) (k : Json) : RegState :=
  if (findOp s.inflight op).isSome then s
  else
    match regFind s.reg k with
    | some e =>
      { reg := regSet s.reg k e.lockId (e.count + 1),
        inflight := ⟨op, k, e.lockId⟩ :: s.inflight,
        nextLock := s.nextLock + 1 }
    | none =>
      { reg := regSet s.reg k s.nextLock 1,
        inflight := ⟨op, k, s.nextLock⟩ :: s.inflight,
        nextLock := s.nextLock + 1 }

/-- The `finally` block: re-read the current entry, delete it if the
counter is 1, otherwise store the decremented counter.  (A missing
entry would be a Python `KeyError`; the invariant proves that branch
unreachable.) -/
def regExit (s : RegState) (op : Nat) : RegState :=
  match findOp s.inflight op with
  | none => s
  | some t =>
    match regFind s.reg t.key with
    | none => { s with inflight := removeOp s.inflight op }
    | some e =>
      if e.count = 1 then
        { s with reg := regRemove s.reg t.key, inflight := removeOp s.inflight op }
      else
        { s with reg := regSet s.reg t.key e.lockId (e.count - 1),
                 inflight := removeOp s.inflight op }

/-- How an operation leaves its `try` block; the `finally` runs on all
three paths. -/
inductive ExitKind where
  | success
  | userNotFound
  | opNotPossible
deriving DecidableEq

/-- Registry events: the pre-`try` bookkeeping of an operation on key
`k`, or its `finally` block (tagged with how the `try` ended, which the
`finally` ignores). -/
inductive RegEvent where
  | enter (op : Nat) (key : Json)
  | exitOp (op : Nat) (kind : ExitKind)

/-- One atomic event-loop step of registry bookkeeping. -/
def regStep (s : RegState) : RegEvent → RegState
  | .enter op k => regEnter s op k
  | .exitOp op _ => regExit s op

/-- Startup assignment of the empty dict to `app['locked_rows']`. -/
def regInit : RegState :=
  { reg := [], inflight := [], nextLock := 0 }

/-- Run a sequence of registry events from startup. -/
def regRun (tr : List RegEvent) : RegState :=
  tr.foldl regStep regInit

/-- The registry's correctness contract: keys are never duplicated,
ghost op ids are unique, every live entry's counter equals the number
of in-flight operations on its key and is positive, a key with no live
entry has no in-flight operation, and every in-flight operation holds
the lock object recorded in the current live entry for its key (so two
operations on the same key never hold distinct lock objects). -/
structure RegInv (s : RegState) : Prop where
  keysNodup : (s.reg.map (fun e => e.key)).Nodup
  idsNodup : (s.inflight.map (fun t => t.op)).Nodup
  countSome : ∀ k e, regFind s.reg k = some e →
    e.count = countInflight s.inflight k ∧ 0 < e.count
  countNone : ∀ k, regFind s.reg k = none → countInflight s.inflight k = 0
  locksAgree : ∀ t ∈ s.inflight,
    ∃ e, regFind s.reg t.key = some e ∧ e.lockId = t.lockId

/-- The per-exit behaviour claimed of every exit path: the count of the
leaving operation's key drops by exactly one, and the entry disappears
exactly when that count returns to zero. -/
def ExitStepOk (s : RegState) : Prop :=
  ∀ op kind t, findOp s.inflight op = some t →
    countInflight (regStep s (.exitOp op kind)).inflight t.key + 1 =
      countInflight s.inflight t.key ∧
    (regFind (regStep s (.exitOp op kind)).reg t.key = none ↔
      countInflight s.inflight t.key = 1)

/-! ## Interleaving model of concurrent `credit(id, 1)` calls (C3)

N `handle_add` requests for the same uuid with `value = 1`, against an
existing active account.  On the single-threaded event loop each
request suspends only at `await` points; its critical section is:
acquire the per-uuid lock, `await get_user_data_by_uuid` (read the
balance), `await update_user_data` (write the incremented balance),
release the lock.  The scheduler picks which request advances at each
step. -/

/-- Where one in-flight `credit(id, 1)` request stands. -/
inductive CPhase where
  | waiting
  | holding
  | readv (v : Int)
  | written
  | done
deriving DecidableEq

/-- Returns `true` while the request is inside `async with lock`. -/
def holdsLock : CPhase → Bool
  | .holding => true
  | .readv _ => true
  | .written => true
  | _ => false

/-- Returns `true` once the request's `update_user_data` has committed. -/
def isFinished : CPhase → Bool
  | .written => true
  | .done => true
  | _ => false

/-- The shared balance cell of the account plus the phase of each of
the N requests. -/
structure CState where
  balance : Int
  ops : List CPhase

/-- The lock is free when no request is inside `async with lock`. -/
def lockFree (s : CState) : Bool :=
  s.ops.all (fun p => !holdsLock p)

/-- Advance request `i` by one atomic segment, if it is enabled:
acquire the lock (only when free), read the balance, write the read
value plus 1, release the lock. -/
def cstep (s : CState) (i : Nat) : CState :=
  match s.ops.get? i with
  | none => s
  | some .waiting =>
    if lockFree s then { s with ops := s.ops.set i .holding } else s
  | some .holding => { s with ops := s.ops.set i (.readv s.balance) }
  | some (.readv v) => { balance := v + 1, ops := s.ops.set i .written }
  | some .written => { s with ops := s.ops.set i .done }
  | some .done => s

/-- Initial state: balance `B`, all N requests waiting. -/
def cinit (B : Int) (N : Nat) : CState :=
  { balance := B, ops := List.replicate N .waiting }

/-- Run the requests under an arbitrary schedule. -/
def crun (B : Int) (N : Nat) (tr : List Nat) : CState :=
  tr.foldl cstep (cinit B N)

/-- At most one request is inside `async with lock`. -/
def atMostOneHolder (s : CState) : Prop :=
  ∀ i j p q, s.ops.get? i = some p → s.ops.get? j = some q →
    holdsLock p = true → holdsLock q = true → i = j

/-! ## Concrete data for witnesses and counterexamples -/

/-- A sample `users` table: `alice {150, 30}`, `bob {100, 90}`,
`carol {100, 0}`, all active. -/
def demoStore : Store := fun u =>
  if u = .str "alice" then some ⟨"Alice", 150, 30, true⟩
  else if u = .str "bob" then some ⟨"Bob", 100, 90, true⟩
  else if u = .str "carol" then some ⟨"Carol", 100, 0, true⟩
  else none

/-- The body `{"addition": {"uuid": "alice", "value": true}}`: its
`value` is the JSON boolean `true`, not a JSON integer. -/
def addTrueBody : Option Json :=
  some (.obj (.cons "addition"
    (.obj (.cons "uuid" (.str "alice") (.cons "value" (.bool true) .nil))) .nil))

/-- The body `{"addition": {"uuid": "alice"}}`, missing `value`. -/
def missingValueBody : Option Json :=
  some (.obj (.cons "addition"
    (.obj (.cons "uuid" (.str "alice") .nil)) .nil))

/-! ## Registry lemmas -/

theorem regFind_nil (k : Json) : regFind [] k = none := rfl

theorem regFind_cons (e : RegEntry) (tl : List RegEntry) (k : Json) :
    regFind (e :: tl) k = if e.key = k then some e else regFind tl k := by
  by_cases h : e.key = k <;> simp [regFind, List.find?, h]

theorem regSet_cons (e : RegEntry) (tl : List RegEntry) (k : Json) (l c : Nat) :
    regSet (e :: tl) k l c =
      if e.key = k then ⟨k, l, c⟩ :: tl else e :: regSet tl k l c := rfl

theorem regRemove_cons (e : RegEntry) (tl : List RegEntry) (k : Json) :
    regRemove (e :: tl) k = if e.key = k then tl else e :: regRemove tl k := rfl

theorem removeOp_cons (t : OpRef) (tl : List OpRef) (op : Nat) :
    removeOp (t :: tl) op = if t.op = op then tl else t :: removeOp tl op := rfl

theorem regFind_regSet_self (r : List RegEntry) (k : Json) (l c : Nat) :
    regFind (regSet r k l c) k = some ⟨k, l, c⟩ := by
  induction r with
  | nil => simp [regSet, regFind_cons, regFind_nil]
  | cons e tl ih =>
    by_cases he : e.key = k
    · rw [regSet_cons, if_pos he, regFind_cons, if_pos rfl]
    · rw [regSet_cons, if_neg he, regFind_cons, if_neg he, ih]

theorem regFind_regSet_ne (r : List RegEntry) {k k' : Json} (l c : Nat) (h : k' ≠ k) :
    regFind (regSet r k l c) k' = regFind r k' := by
  induction r with
  | nil => simp [regSet, regFind_cons, regFind_nil, Ne.symm h]
  | cons e tl ih =>
    by_cases he : e.key = k
    · rw [regSet_cons, if_pos he, regFind_cons, if_neg (by simp [Ne.symm h]),
        regFind_cons, if_neg (by rw [he]; exact Ne.symm h)]
    · rw [regSet_cons, if_neg he, regFind_cons, regFind_cons, ih]

theorem mem_keys_regSet (r : List RegEntry) (k k'' : Json) (l c : Nat) :
    k'' ∈ (regSet r k l c).map (fun e => e.key) ↔
      k'' ∈ r.map (fun e => e.key) ∨ k'' = k := by
  induction r with
  | nil => simp [regSet]
  | cons e tl ih =>
    by_cases he : e.key = k
    · rw [regSet_cons, if_pos he]
      simp only [List.map_cons, List.mem_cons, he]
      tauto
    · rw [regSet_cons, if_neg he]
      simp only [List.map_cons, List.mem_cons, ih]
      tauto

theorem regSet_keys_nodup {r : List RegEntry} (k : Json) (l c : Nat)
    (h : (r.map (fun e => e.key)).Nodup) :
    ((regSet r k l c).map (fun e => e.key)).Nodup := by
  induction r with
  | nil => simp [regSet]
  | cons e tl ih =>
    simp only [List.map_cons, List.nodup_cons] at h
    by_cases he : e.key = k
    · rw [regSet_cons, if_pos he]
      simp only [List.map_cons, List.nodup_cons]
      exact ⟨fun hc => h.1 (he ▸ hc), h.2⟩
    · rw [regSet_cons, if_neg he]
      simp only [List.map_cons, List.nodup_cons]
      refine ⟨?_, ih h.2⟩
      rw [mem_keys_regSet]
      rintro (hc | hc)
      · exact h.1 hc
      · exact he hc

theorem regRemove_sublist (r : List RegEntry) (k : Json) :
    List.Sublist (regRemove r k) r := by
  induction r with
  | nil => simp [regRemove]
  | cons e tl ih =>
    by_cases he : e.key = k
    · rw [regRemove_cons, if_pos he]
      exact List.sublist_cons_self e tl
    · rw [regRemove_cons, if_neg he]
      exact List.Sublist.cons₂ e ih

theorem regRemove_keys_nodup {r : List RegEntry} (k : Json)
    (h : (r.map (fun e => e.key)).Nodup) :
    ((regRemove r k).map (fun e => e.key)).Nodup :=
  List.Nodup.sublist (List.Sublist.map (fun e => e.key) (regRemove_sublist r k)) h

theorem regFind_regRemove_self {r : List RegEntry} (k : Json)
    (h : (r.map (fun e => e.key)).Nodup) :
    regFind (regRemove r k) k = none := by
  induction r with
  | nil => rfl
  | cons e tl ih =>
    simp only [List.map_cons, List.nodup_cons] at h
    by_cases he : e.key = k
    · rw [regRemove_cons, if_pos he]
      rw [regFind, List.find?_eq_none]
      intro x hx
      simp only [decide_eq_true_eq]
      intro hxk
      exact h.1 (by rw [he, ← hxk]; exact List.mem_map.mpr ⟨x, hx, rfl⟩)
    · rw [regRemove_cons, if_neg he, regFind_cons, if_neg he]
      exact ih h.2

theorem regFind_regRemove_ne (r : List RegEntry) {k k' : Json} (h : k' ≠ k) :
    regFind (regRemove r k) k' = regFind r k' := by
  induction r with
  | nil => rfl
  | cons e tl ih =>
    by_cases he : e.key = k
    · rw [regRemove_cons, if_pos he, regFind_cons,
        if_neg (by rw [he]; exact Ne.symm h)]
    · rw [regRemove_cons, if_neg he, regFind_cons, regFind_cons, ih]

theorem countInflight_cons (t : OpRef) (fl : List OpRef) (k : Json) :
    countInflight (t :: fl) k =
      (if t.key = k then 1 else 0) + countInflight fl k := by
  by_cases h : t.key = k <;> simp [countInflight, List.filter_cons, h, Nat.add_comm]

theorem countInflight_pos_of_mem {fl : List OpRef} {t : OpRef} {k : Json}
    (ht : t ∈ fl) (hk : t.key = k) : 0 < countInflight fl k := by
  induction fl with
  | nil => cases ht
  | cons h0 tl ih =>
    rcases List.mem_cons.mp ht with h | h
    · subst h
      simp [countInflight_cons, hk]
    · have := ih h
      rw [countInflight_cons]
      omega

theorem removeOp_sublist (fl : List OpRef) (op : Nat) :
    List.Sublist (removeOp fl op) fl := by
  induction fl with
  | nil => simp [removeOp]
  | cons t tl ih =>
    by_cases h : t.op = op
    · rw [removeOp_cons, if_pos h]
      exact List.sublist_cons_self t tl
    · rw [removeOp_cons, if_neg h]
      exact List.Sublist.cons₂ t ih

theorem removeOp_ids_nodup {fl : List OpRef} (op : Nat)
    (h : (fl.map (fun t => t.op)).Nodup) :
    ((removeOp fl op).map (fun t => t.op)).Nodup :=
  List.Nodup.sublist (List.Sublist.map (fun t => t.op) (removeOp_sublist fl op)) h

theorem mem_of_mem_removeOp {fl : List OpRef} {op : Nat} {t' : OpRef}
    (h : t' ∈ removeOp fl op) : t' ∈ fl :=
  List.Sublist.mem h (removeOp_sublist fl op)

theorem op_ne_of_mem_removeOp {fl : List OpRef} {op : Nat}
    (hnd : (fl.map (fun t => t.op)).Nodup) :
    ∀ t' ∈ removeOp fl op, t'.op ≠ op := by
  induction fl with
  | nil => intro t' h; cases h
  | cons h0 tl ih =>
    simp only [List.map_cons, List.nodup_cons] at hnd
    intro t' ht'
    by_cases h : h0.op = op
    · rw [removeOp_cons, if_pos h] at ht'
      intro hc
      exact hnd.1 (by rw [h, ← hc]; exact List.mem_map.mpr ⟨t', ht', rfl⟩)
    · rw [removeOp_cons, if_neg h] at ht'
      rcases List.mem_cons.mp ht' with h' | h'
      · rw [h']; exact h
      · exact ih hnd.2 t' h'

theorem countInflight_removeOp {fl : List OpRef} {t : OpRef} {op : Nat}
    (hnd : (fl.map (fun t => t.op)).Nodup) (ht : t ∈ fl) (hop : t.op = op) :
    ∀ k, countInflight (removeOp fl op) k + (if t.key = k then 1 else 0) =
      countInflight fl k := by
  induction fl with
  | nil => cases ht
  | cons h0 tl ih =>
    simp only [List.map_cons, List.nodup_cons] at hnd
    intro k
    by_cases h : h0.op = op
    · have hth0 : t = h0 := by
        rcases List.mem_cons.mp ht with h' | h'
        · exact h'
        · exact absurd (by rw [h, ← hop]; exact List.mem_map.mpr ⟨t, h', rfl⟩ :
            h0.op ∈ tl.map (fun t => t.op)) hnd.1
      subst hth0
      rw [removeOp_cons, if_pos h, countInflight_cons]
      omega
    · have htl : t ∈ tl := by
        rcases List.mem_cons.mp ht with h' | h'
        · exact absurd (by rw [← h']; exact hop) h
        · exact h'
      have := ih hnd.2 htl k
      rw [removeOp_cons, if_neg h, countInflight_cons, countInflight_cons]
      omega

theorem findOp_eq_some {fl : List OpRef} {op : Nat} {t : OpRef}
    (h : findOp fl op = some t) : t ∈ fl ∧ t.op = op :=
  ⟨List.mem_of_find?_eq_some h, by simpa using List.find?_some h⟩

theorem findOp_eq_none {fl : List OpRef} {op : Nat}
    (h : findOp fl op = none) : ∀ t ∈ fl, t.op ≠ op := by
  intro t ht
  have := List.find?_eq_none.mp h t ht
  simpa using this

theorem regInit_inv : RegInv regInit := by
  refine ⟨List.nodup_nil, List.nodup_nil, ?_, ?_, ?_⟩
  · intro k e hf
    cases hf
  · intro k _
    rfl
  · intro t ht
    cases ht

theorem regEnter_spec_busy {s : RegState} {op : Nat} (k : Json)
    (h : findOp s.inflight op ≠ none) : regEnter s op k = s := by
  unfold regEnter
  rw [if_pos (Option.isSome_iff_ne_none.mpr h)]

theorem regEnter_spec_old {s : RegState} {op : Nat} {k : Json} {e : RegEntry}
    (h1 : findOp s.inflight op = none) (h2 : regFind s.reg k = some e) :
    regEnter s op k =
      { reg := regSet s.reg k e.lockId (e.count + 1),
        inflight := ⟨op, k, e.lockId⟩ :: s.inflight,
        nextLock := s.nextLock + 1 } := by
  unfold regEnter
  rw [if_neg (by rw [h1]; simp)]
  rw [h2]

theorem regEnter_spec_new {s : RegState} {op : Nat} {k : Json}
    (h1 : findOp s.inflight op = none) (h2 : regFind s.reg k = none) :
    regEnter s op k =
      { reg := regSet s.reg k s.nextLock 1,
        inflight := ⟨op, k, s.nextLock⟩ :: s.inflight,
        nextLock := s.nextLock + 1 } := by
  unfold regEnter
  rw [if_neg (by rw [h1]; simp)]
  rw [h2]

theorem regExit_spec_skip {s : RegState} {op : Nat}
    (h : findOp s.inflight op = none) : regExit s op = s := by
  unfold regExit
  rw [h]

theorem regExit_spec_del {s : RegState} {op : Nat} {t : OpRef} {e : RegEntry}
    (h1 : findOp s.inflight op = some t) (h2 : regFind s.reg t.key = some e)
    (h3 : e.count = 1) :
    regExit s op =
      { s with reg := regRemove s.reg t.key, inflight := removeOp s.inflight op } := by
  unfold regExit
  simp only [h1, h2]
  rw [if_pos h3]

theorem regExit_spec_dec {s : RegState} {op : Nat} {t : OpRef} {e : RegEntry}
    (h1 : findOp s.inflight op = some t) (h2 : regFind s.reg t.key = some e)
    (h3 : ¬ e.count = 1) :
    regExit s op =
      { s with reg := regSet s.reg t.key e.lockId (e.count - 1),
               inflight := removeOp s.inflight op } := by
  unfold regExit
  simp only [h1, h2]
  rw [if_neg h3]

theorem countInflight_cons_self (op l : Nat) (k : Json) (fl : List OpRef) :
    countInflight (⟨op, k, l⟩ :: fl) k = 1 + countInflight fl k := by
  rw [countInflight_cons]
  simp

theorem countInflight_cons_ne (op l : Nat) {k k' : Json} (fl : List OpRef)
    (h : k' ≠ k) : countInflight (⟨op, k, l⟩ :: fl) k' = countInflight fl k' := by
  rw [countInflight_cons]
  simp [Ne.symm h]

theorem regInv_enter_glue {s : RegState} {op : Nat} {k : Json} (lFresh cNew n : Nat)
    (h : RegInv s)
    (hfresh : ∀ t ∈ s.inflight, t.op ≠ op)
    (hcnt : cNew = countInflight s.inflight k + 1)
    (hlk : ∀ e, regFind s.reg k = some e → e.lockId = lFresh) :
    RegInv { reg := regSet s.reg k lFresh cNew,
             inflight := ⟨op, k, lFresh⟩ :: s.inflight,
             nextLock := n } := by
  refine ⟨?_, ?_, ?_, ?_, ?_⟩
  · show ((regSet s.reg k lFresh cNew).map (fun e => e.key)).Nodup
    exact regSet_keys_nodup k lFresh cNew h.keysNodup
  · show ((⟨op, k, lFresh⟩ :: s.inflight).map (fun t => t.op)).Nodup
    rw [List.map_cons, List.nodup_cons]
    refine ⟨?_, h.idsNodup⟩
    rw [List.mem_map]
    rintro ⟨t, ht, hteq⟩
    exact hfresh t ht hteq
  · intro k' e' hfind'
    replace hfind' : regFind (regSet s.reg k lFresh cNew) k' = some e' := hfind'
    show e'.count = countInflight (⟨op, k, lFresh⟩ :: s.inflight) k' ∧ 0 < e'.count
    by_cases hk : k' = k
    · rw [hk] at hfind' ⊢
      rw [regFind_regSet_self] at hfind'
      injection hfind' with he'
      rw [← he']
      show cNew = countInflight (⟨op, k, lFresh⟩ :: s.inflight) k ∧ 0 < cNew
      rw [countInflight_cons_self]
      omega
    · rw [regFind_regSet_ne _ _ _ hk] at hfind'
      have := h.countSome k' e' hfind'
      rw [countInflight_cons_ne _ _ _ hk]
      omega
  · intro k' hfind'
    replace hfind' : regFind (regSet s.reg k lFresh cNew) k' = none := hfind'
    show countInflight (⟨op, k, lFresh⟩ :: s.inflight) k' = 0
    by_cases hk : k' = k
    · rw [hk] at hfind'
      rw [regFind_regSet_self] at hfind'
      cases hfind'
    · rw [regFind_regSet_ne _ _ _ hk] at hfind'
      rw [countInflight_cons_ne _ _ _ hk]
      exact h.countNone k' hfind'
  · intro t ht
    replace ht : t ∈ (⟨op, k, lFresh⟩ : OpRef) :: s.inflight := ht
    show ∃ e, regFind (regSet s.reg k lFresh cNew) t.key = some e ∧ e.lockId = t.lockId
    rcases List.mem_cons.mp ht with hteq | htmem
    · subst hteq
      exact ⟨⟨k, lFresh, cNew⟩, regFind_regSet_self _ _ _ _, rfl⟩
    · obtain ⟨e'', hfind'', hlock''⟩ := h.locksAgree t htmem
      by_cases hk : t.key = k
      · have hl'' : e''.lockId = lFresh := by
          apply hlk
          rw [← hk]
          exact hfind''
        refine ⟨⟨k, lFresh, cNew⟩, by rw [hk]; exact regFind_regSet_self _ _ _ _, ?_⟩
        rw [← hlock'', hl'']
      · exact ⟨e'', by rw [regFind_regSet_ne _ _ _ hk]; exact hfind'', hlock''⟩

theorem regEnter_inv {s : RegState} (op : Nat) (k : Json) (h : RegInv s) :
    RegInv (regEnter s op k) := by
  cases hin : findOp s.inflight op with
  | some t =>
    rw [regEnter_spec_busy k (by rw [hin]; exact Option.noConfusion)]
    exact h
  | none =>
    have hfresh : ∀ t ∈ s.inflight, t.op ≠ op := findOp_eq_none hin
    cases hf : regFind s.reg k with
    | some e =>
      rw [regEnter_spec_old hin hf]
      have hc := h.countSome k e hf
      refine regInv_enter_glue e.lockId (e.count + 1) (s.nextLock + 1) h hfresh ?_ ?_
      · omega
      · intro e' hf'
        rw [hf] at hf'
        injection hf' with he'
        rw [← he']
    | none =>
      rw [regEnter_spec_new hin hf]
      have hzero := h.countNone k hf
      refine regInv_enter_glue s.nextLock 1 (s.nextLock + 1) h hfresh ?_ ?_
      · omega
      · intro e' hf'
        rw [hf] at hf'
        cases hf'

theorem regExit_inv {s : RegState} (op : Nat) (h : RegInv s) :
    RegInv (regExit s op) := by
  cases hfo : findOp s.inflight op with
  | none =>
    rw [regExit_spec_skip hfo]
    exact h
  | some t =>
    obtain ⟨htmem, htop⟩ := findOp_eq_some hfo
    obtain ⟨e, hfind, hlock⟩ := h.locksAgree t htmem
    have hc := h.countSome t.key e hfind
    have hcount := countInflight_removeOp h.idsNodup htmem htop
    have hcself := hcount t.key
    rw [if_pos rfl] at hcself
    by_cases h1 : e.count = 1
    · rw [regExit_spec_del hfo hfind h1]
      refine ⟨?_, ?_, ?_, ?_, ?_⟩
      · show ((regRemove s.reg t.key).map (fun e => e.key)).Nodup
        exact regRemove_keys_nodup t.key h.keysNodup
      · show ((removeOp s.inflight op).map (fun t => t.op)).Nodup
        exact removeOp_ids_nodup op h.idsNodup
      · intro k' e' hfind'
        show e'.count = countInflight (removeOp s.inflight op) k' ∧ 0 < e'.count
        replace hfind' : regFind (regRemove s.reg t.key) k' = some e' := hfind'
        by_cases hk : k' = t.key
        · rw [hk] at hfind'
          rw [regFind_regRemove_self t.key h.keysNodup] at hfind'
          cases hfind'
        · rw [regFind_regRemove_ne _ hk] at hfind'
          have := h.countSome k' e' hfind'
          have hck := hcount k'
          rw [if_neg (fun hc' => hk hc'.symm)] at hck
          omega
      · intro k' hfind'
        show countInflight (removeOp s.inflight op) k' = 0
        replace hfind' : regFind (regRemove s.reg t.key) k' = none := hfind'
        by_cases hk : k' = t.key
        · rw [hk]
          omega
        · rw [regFind_regRemove_ne _ hk] at hfind'
          have := h.countNone k' hfind'
          have hck := hcount k'
          rw [if_neg (fun hc' => hk hc'.symm)] at hck
          omega
      · intro t' ht'
        show ∃ e', regFind (regRemove s.reg t.key) t'.key = some e' ∧ e'.lockId = t'.lockId
        replace ht' : t' ∈ removeOp s.inflight op := ht'
        have ht'mem := mem_of_mem_removeOp ht'
        by_cases hk : t'.key = t.key
        · have hpos := countInflight_pos_of_mem ht' hk
          omega
        · obtain ⟨e'', hf'', hl''⟩ := h.locksAgree t' ht'mem
          exact ⟨e'', by rw [regFind_regRemove_ne _ hk]; exact hf'', hl''⟩
    · rw [regExit_spec_dec hfo hfind h1]
      refine ⟨?_, ?_, ?_, ?_, ?_⟩
      · show ((regSet s.reg t.key e.lockId (e.count - 1)).map (fun e => e.key)).Nodup
        exact regSet_keys_nodup t.key e.lockId (e.count - 1) h.keysNodup
      · show ((removeOp s.inflight op).map (fun t => t.op)).Nodup
        exact removeOp_ids_nodup op h.idsNodup
      · intro k' e' hfind'
        show e'.count = countInflight (removeOp s.inflight op) k' ∧ 0 < e'.count
        replace hfind' : regFind (regSet s.reg t.key e.lockId (e.count - 1)) k' = some e' :=
          hfind'
        by_cases hk : k' = t.key
        · rw [hk] at hfind' ⊢
          rw [regFind_regSet_self] at hfind'
          injection hfind' with he'
          rw [← he']
          show e.count - 1 = countInflight (removeOp s.inflight op) t.key ∧ 0 < e.count - 1
          omega
        · rw [regFind_regSet_ne _ _ _ hk] at hfind'
          have := h.countSome k' e' hfind'
          have hck := hcount k'
          rw [if_neg (fun hc' => hk hc'.symm)] at hck
          omega
      · intro k' hfind'
        show countInflight (removeOp s.inflight op) k' = 0
        replace hfind' : regFind (regSet s.reg t.key e.lockId (e.count - 1)) k' = none :=
          hfind'
        by_cases hk : k' = t.key
        · subst hk
          rw [regFind_regSet_self] at hfind'
          cases hfind'
        · rw [regFind_regSet_ne _ _ _ hk] at hfind'
          have := h.countNone k' hfind'
          have hck := hcount k'
          rw [if_neg (fun hc' => hk hc'.symm)] at hck
          omega
      · intro t' ht'
        show ∃ e', regFind (regSet s.reg t.key e.lockId (e.count - 1)) t'.key = some e' ∧
          e'.lockId = t'.lockId
        replace ht' : t' ∈ removeOp s.inflight op := ht'
        have ht'mem := mem_of_mem_removeOp ht'
        obtain ⟨e'', hf'', hl''⟩ := h.locksAgree t' ht'mem
        by_cases hk : t'.key = t.key
        · rw [hk, hfind] at hf''
          injection hf'' with he''
          refine ⟨⟨t.key, e.lockId, e.count - 1⟩,
            by rw [hk]; exact regFind_regSet_self _ _ _ _, ?_⟩
          rw [← hl'', ← he'']
        · exact ⟨e'', by rw [regFind_regSet_ne _ _ _ hk]; exact hf'', hl''⟩

theorem regStep_inv {s : RegState} (ev : RegEvent) (h : RegInv s) :
    RegInv (regStep s ev) := by
  cases ev with
  | enter op k => exact regEnter_inv op k h
  | exitOp op kind => exact regExit_inv op h

theorem regRun_inv (tr : List RegEvent) : RegInv (regRun tr) := by
  suffices h : ∀ s, RegInv s → RegInv (tr.foldl regStep s) from h regInit regInit_inv
  induction tr with
  | nil => intro s hs; exact hs
  | cons ev tl ih => intro s hs; exact ih _ (regStep_inv ev hs)

theorem exitStepOk_of_inv {s : RegState} (h : RegInv s) : ExitStepOk s := by
  intro op kind t hfo
  obtain ⟨htmem, htop⟩ := findOp_eq_some hfo
  obtain ⟨e, hfind, hlock⟩ := h.locksAgree t htmem
  have hc := h.countSome t.key e hfind
  have hcself := countInflight_removeOp h.idsNodup htmem htop t.key
  rw [if_pos rfl] at hcself
  show countInflight (regExit s op).inflight t.key + 1 = countInflight s.inflight t.key ∧
    (regFind (regExit s op).reg t.key = none ↔ countInflight s.inflight t.key = 1)
  by_cases h1 : e.count = 1
  · rw [regExit_spec_del hfo hfind h1]
    refine ⟨hcself, ?_, ?_⟩
    · intro _
      omega
    · intro _
      exact regFind_regRemove_self t.key h.keysNodup
  · rw [regExit_spec_dec hfo hfind h1]
    refine ⟨hcself, ?_, ?_⟩
    · intro hcontra
      replace hcontra : regFind (regSet s.reg t.key e.lockId (e.count - 1)) t.key = none :=
        hcontra
      rw [regFind_regSet_self] at hcontra
      cases hcontra
    · intro hcount1
      omega

/-! ## Lemmas for the concurrent credit model -/

/-- Number of requests whose write has committed. -/
def countFinished (s : CState) : Nat :=
  (s.ops.filter (fun p => isFinished p)).length

/-- The inductive invariant of the concurrent-credit system. -/
def CInv (B : Int) (N : Nat) (s : CState) : Prop :=
  s.ops.length = N ∧
  s.balance = B + countFinished s ∧
  atMostOneHolder s ∧
  (∀ i v, s.ops.get? i = some (.readv v) → v = s.balance)

theorem cstep_spec_none {s : CState} {i : Nat} (h : s.ops.get? i = none) :
    cstep s i = s := by
  unfold cstep
  simp only [h]

theorem cstep_spec_waiting_free {s : CState} {i : Nat}
    (h : s.ops.get? i = some .waiting) (hf : lockFree s = true) :
    cstep s i = { s with ops := s.ops.set i .holding } := by
  unfold cstep
  simp only [h]
  rw [if_pos hf]

theorem cstep_spec_waiting_busy {s : CState} {i : Nat}
    (h : s.ops.get? i = some .waiting) (hf : ¬ lockFree s = true) :
    cstep s i = s := by
  unfold cstep
  simp only [h]
  rw [if_neg hf]

theorem cstep_spec_holding {s : CState} {i : Nat}
    (h : s.ops.get? i = some .holding) :
    cstep s i = { s with ops := s.ops.set i (.readv s.balance) } := by
  unfold cstep
  simp only [h]

theorem cstep_spec_readv {s : CState} {i : Nat} {v : Int}
    (h : s.ops.get? i = some (.readv v)) :
    cstep s i = { balance := v + 1, ops := s.ops.set i .written } := by
  unfold cstep
  simp only [h]

theorem cstep_spec_written {s : CState} {i : Nat}
    (h : s.ops.get? i = some .written) :
    cstep s i = { s with ops := s.ops.set i .done } := by
  unfold cstep
  simp only [h]

theorem cstep_spec_done {s : CState} {i : Nat}
    (h : s.ops.get? i = some .done) :
    cstep s i = s := by
  unfold cstep
  simp only [h]

theorem lockFree_no_holder {s : CState} (hf : lockFree s = true) :
    ∀ p ∈ s.ops, holdsLock p = false := by
  intro p hp
  have := List.all_eq_true.mp hf p hp
  simpa using this

theorem length_filter_set_same (p : CPhase → Bool) (l : List CPhase) :
    ∀ (i : Nat) (a b : CPhase), l.get? i = some a → p a = p b →
      ((l.set i b).filter p).length = (l.filter p).length := by
  induction l with
  | nil => intro i a b h _; cases h
  | cons x tl ih =>
    intro i a b h hab
    cases i with
    | zero =>
      injection h with hx
      subst hx
      rw [List.set_cons_zero, List.filter_cons, List.filter_cons, ← hab]
      by_cases hp : p x = true
      · rw [if_pos hp, if_pos hp]
        simp
      · rw [if_neg hp, if_neg hp]
    | succ n =>
      rw [List.set_cons_succ, List.filter_cons, List.filter_cons]
      have := ih n a b h hab
      by_cases hp : p x = true
      · rw [if_pos hp, if_pos hp]
        simpa using this
      · rw [if_neg hp, if_neg hp]
        exact this

theorem length_filter_set_incr (p : CPhase → Bool) (l : List CPhase) :
    ∀ (i : Nat) (a b : CPhase), l.get? i = some a → p a = false → p b = true →
      ((l.set i b).filter p).length = (l.filter p).length + 1 := by
  induction l with
  | nil => intro i a b h _ _; cases h
  | cons x tl ih =>
    intro i a b h ha hb
    cases i with
    | zero =>
      injection h with hx
      subst hx
      rw [List.set_cons_zero, List.filter_cons, List.filter_cons,
        if_pos hb, if_neg (by rw [ha]; exact Bool.false_ne_true)]
      simp
    | succ n =>
      rw [List.set_cons_succ, List.filter_cons, List.filter_cons]
      have := ih n a b h ha hb
      by_cases hp : p x = true
      · rw [if_pos hp, if_pos hp, List.length_cons, List.length_cons, this]
      · rw [if_neg hp, if_neg hp]
        exact this

theorem cinit_inv (B : Int) (N : Nat) : CInv B N (cinit B N) := by
  refine ⟨List.length_replicate N _, ?_, ?_, ?_⟩
  · show B = B + countFinished (cinit B N)
    have : countFinished (cinit B N) = 0 := by
      show ((List.replicate N CPhase.waiting).filter (fun p => isFinished p)).length = 0
      rw [List.filter_replicate, if_neg (by decide)]
      rfl
    omega
  · intro i j p q hi _ hp _
    have := List.eq_of_mem_replicate (List.get?_mem hi)
    rw [this] at hp
    cases hp
  · intro i v hi
    have := List.eq_of_mem_replicate (List.get?_mem hi)
    cases this

theorem cstep_inv {B : Int} {N : Nat} {s : CState} (h : CInv B N s) (i : Nat) :
    CInv B N (cstep s i) := by
  obtain ⟨hlen, hbal, hone, hread⟩ := h
  cases hget : s.ops.get? i with
  | none => rw [cstep_spec_none hget]; exact ⟨hlen, hbal, hone, hread⟩
  | some p =>
    have hilt : i < s.ops.length := (List.get?_eq_some.mp hget).1
    cases p with
    | waiting =>
      by_cases hf : lockFree s = true
      · rw [cstep_spec_waiting_free hget hf]
        have hnh := lockFree_no_holder hf
        refine ⟨?_, ?_, ?_, ?_⟩
        · show (s.ops.set i .holding).length = N
          rw [List.length_set]; exact hlen
        · show s.balance = B + ((s.ops.set i .holding).filter _).length
          rw [length_filter_set_same (fun p => isFinished p) s.ops i CPhase.waiting CPhase.holding hget (by decide)]
          exact hbal
        · intro j1 j2 p q hj1 hj2 hp hq
          replace hj1 : (s.ops.set i .holding).get? j1 = some p := hj1
          replace hj2 : (s.ops.set i .holding).get? j2 = some q := hj2
          by_cases h1 : j1 = i
          · by_cases h2 : j2 = i
            · rw [h1, h2]
            · rw [List.get?_set_ne _ _ (Ne.symm h2)] at hj2
              exact absurd hq (by rw [hnh q (List.get?_mem hj2)]; exact Bool.false_ne_true)
          · rw [List.get?_set_ne _ _ (Ne.symm h1)] at hj1
            exact absurd hp (by rw [hnh p (List.get?_mem hj1)]; exact Bool.false_ne_true)
        · intro j v hj
          replace hj : (s.ops.set i .holding).get? j = some (.readv v) := hj
          by_cases hji : j = i
          · rw [hji, List.get?_set_eq_of_lt _ hilt] at hj
            cases hj
          · rw [List.get?_set_ne _ _ (Ne.symm hji)] at hj
            have : holdsLock (.readv v) = false := hnh _ (List.get?_mem hj)
            cases this
      · rw [cstep_spec_waiting_busy hget hf]
        exact ⟨hlen, hbal, hone, hread⟩
    | holding =>
      rw [cstep_spec_holding hget]
      refine ⟨?_, ?_, ?_, ?_⟩
      · show (s.ops.set i (.readv s.balance)).length = N
        rw [List.length_set]; exact hlen
      · show s.balance = B + ((s.ops.set i (.readv s.balance)).filter _).length
        rw [length_filter_set_same (fun p => isFinished p) s.ops i CPhase.holding (CPhase.readv s.balance) hget rfl]
        exact hbal
      · intro j1 j2 p q hj1 hj2 hp hq
        replace hj1 : (s.ops.set i (.readv s.balance)).get? j1 = some p := hj1
        replace hj2 : (s.ops.set i (.readv s.balance)).get? j2 = some q := hj2
        by_cases h1 : j1 = i
        · by_cases h2 : j2 = i
          · rw [h1, h2]
          · rw [List.get?_set_ne _ _ (Ne.symm h2)] at hj2
            have := hone j2 i q .holding hj2 hget hq rfl
            exact absurd this h2
        · rw [List.get?_set_ne _ _ (Ne.symm h1)] at hj1
          have := hone j1 i p .holding hj1 hget hp rfl
          exact absurd this h1
      · intro j v hj
        replace hj : (s.ops.set i (.readv s.balance)).get? j = some (.readv v) := hj
        by_cases hji : j = i
        · rw [hji, List.get?_set_eq_of_lt _ hilt] at hj
          injection hj with hj'
          injection hj' with hv
          rw [← hv]
        · rw [List.get?_set_ne _ _ (Ne.symm hji)] at hj
          have := hone j i (.readv v) .holding hj hget rfl rfl
          exact absurd this hji
    | readv v =>
      rw [cstep_spec_readv hget]
      have hv : v = s.balance := hread i v hget
      refine ⟨?_, ?_, ?_, ?_⟩
      · show (s.ops.set i .written).length = N
        rw [List.length_set]; exact hlen
      · show v + 1 = B + ((s.ops.set i .written).filter _).length
        rw [length_filter_set_incr (fun p => isFinished p) s.ops i (CPhase.readv v) CPhase.written hget rfl rfl]
        rw [hv, hbal]
        unfold countFinished
        push_cast
        ring
      · intro j1 j2 p q hj1 hj2 hp hq
        replace hj1 : (s.ops.set i .written).get? j1 = some p := hj1
        replace hj2 : (s.ops.set i .written).get? j2 = some q := hj2
        by_cases h1 : j1 = i
        · by_cases h2 : j2 = i
          · rw [h1, h2]
          · rw [List.get?_set_ne _ _ (Ne.symm h2)] at hj2
            have := hone j2 i q (.readv v) hj2 hget hq rfl
            exact absurd this h2
        · rw [List.get?_set_ne _ _ (Ne.symm h1)] at hj1
          have := hone j1 i p (.readv v) hj1 hget hp rfl
          exact absurd this h1
      · intro j v' hj
        replace hj : (s.ops.set i .written).get? j = some (.readv v') := hj
        by_cases hji : j = i
        · rw [hji, List.get?_set_eq_of_lt _ hilt] at hj
          cases hj
        · rw [List.get?_set_ne _ _ (Ne.symm hji)] at hj
          have := hone j i (.readv v') (.readv v) hj hget rfl rfl
          exact absurd this hji
    | written =>
      rw [cstep_spec_written hget]
      refine ⟨?_, ?_, ?_, ?_⟩
      · show (s.ops.set i .done).length = N
        rw [List.length_set]; exact hlen
      · show s.balance = B + ((s.ops.set i .done).filter _).length
        rw [length_filter_set_same (fun p => isFinished p) s.ops i CPhase.written CPhase.done hget (by decide)]
        exact hbal
      · intro j1 j2 p q hj1 hj2 hp hq
        replace hj1 : (s.ops.set i .done).get? j1 = some p := hj1
        replace hj2 : (s.ops.set i .done).get? j2 = some q := hj2
        by_cases h1 : j1 = i
        · rw [h1, List.get?_set_eq_of_lt _ hilt] at hj1
          injection hj1 with hp'
          rw [← hp'] at hp
          cases hp
        · rw [List.get?_set_ne _ _ (Ne.symm h1)] at hj1
          have := hone j1 i p .written hj1 hget hp rfl
          exact absurd this h1
      · intro j v hj
        replace hj : (s.ops.set i .done).get? j = some (.readv v) := hj
        by_cases hji : j = i
        · rw [hji, List.get?_set_eq_of_lt _ hilt] at hj
          cases hj
        · rw [List.get?_set_ne _ _ (Ne.symm hji)] at hj
          have := hone j i (.readv v) .written hj hget rfl rfl
          exact absurd this hji
    | done =>
      rw [cstep_spec_done hget]
      exact ⟨hlen, hbal, hone, hread⟩

theorem crun_inv (B : Int) (N : Nat) (tr : List Nat) : CInv B N (crun B N tr) := by
  suffices h : ∀ s, CInv B N s → CInv B N (tr.foldl cstep s) from h (cinit B N) (cinit_inv B N)
  induction tr with
  | nil => intro s hs; exact hs
  | cons i tl ih => intro s hs; exact ih _ (cstep_inv hs i)

/-! ## Characterization lemmas for the engine operations -/

theorem update_user_data_self (s : Store) (u : Json) (params : List FieldUpd) :
    update_user_data s u params u = (s u).map (fun a => params.foldl applyUpd a) := by
  simp [update_user_data]

theorem update_user_data_other (s : Store) (u : Json) (params : List FieldUpd)
    {u' : Json} (h : u' ≠ u) : update_user_data s u params u' = s u' := by
  simp [update_user_data, h]

theorem credit_op_of_none {s : Store} {u : Json} (v : Int) (hu : s u = none) :
    credit_op s u v =
      ⟨.resp (make_user_not_found_response "uuid not found"), s, []⟩ := by
  unfold credit_op get_user_data_by_uuid
  simp only [hu]

theorem credit_op_of_inactive {s : Store} {u : Json} {a : Account} (v : Int)
    (hu : s u = some a) (ha : a.status = false) :
    credit_op s u v =
      ⟨.resp (make_operation_not_possible_response "status is inactive"), s, []⟩ := by
  unfold credit_op get_user_data_by_uuid
  simp only [hu]
  rw [if_pos ha]

theorem credit_op_of_ok {s : Store} {u : Json} {a : Account} (v : Int)
    (hu : s u = some a) (ha : a.status = true) :
    credit_op s u v =
      ⟨.resp make_ok_response,
       update_user_data s u [.balance (a.balance + v)],
       [(u, [.balance (a.balance + v)])]⟩ := by
  unfold credit_op get_user_data_by_uuid
  simp only [hu]
  rw [if_neg (by rw [ha]; simp)]

theorem reserve_op_of_none {s : Store} {u : Json} (v : Int) (hu : s u = none) :
    reserve_op s u v =
      ⟨.resp (make_user_not_found_response "uuid not found"), s, []⟩ := by
  unfold reserve_op get_user_data_by_uuid
  simp only [hu]

theorem reserve_op_of_inactive {s : Store} {u : Json} {a : Account} (v : Int)
    (hu : s u = some a) (ha : a.status = false) :
    reserve_op s u v =
      ⟨.resp (make_operation_not_possible_response "status is inactive"), s, []⟩ := by
  unfold reserve_op get_user_data_by_uuid
  simp only [hu]
  rw [if_pos ha]

theorem reserve_op_of_low {s : Store} {u : Json} {a : Account} (v : Int)
    (hu : s u = some a) (ha : a.status = true)
    (hsp : subtraction_is_possible a.balance a.hold v = false) :
    reserve_op s u v =
      ⟨.resp (make_operation_not_possible_response "balance too low"), s, []⟩ := by
  unfold reserve_op get_user_data_by_uuid
  simp only [hu]
  rw [if_neg (by rw [ha]; simp), if_pos hsp]

theorem reserve_op_of_ok {s : Store} {u : Json} {a : Account} (v : Int)
    (hu : s u = some a) (ha : a.status = true)
    (hsp : subtraction_is_possible a.balance a.hold v = true) :
    reserve_op s u v =
      ⟨.resp make_ok_response,
       update_user_data s u [.hold (a.hold + v)],
       [(u, [.hold (a.hold + v)])]⟩ := by
  unfold reserve_op get_user_data_by_uuid
  simp only [hu]
  rw [if_neg (by rw [ha]; simp), if_neg (by rw [hsp]; simp)]

theorem handle_add_of_parse_ok {body : Option Json} {uuid value : Json}
    (s : Store) (hp : parse_add body = .ok uuid value) :
    handle_add s body = credit_op s uuid (pyIntVal value) := by
  unfold handle_add
  simp only [hp]

theorem handle_subtract_of_parse_ok {body : Option Json} {uuid value : Json}
    (s : Store) (hp : parse_add body = .ok uuid value) :
    handle_subtract s body = reserve_op s uuid (pyIntVal value) := by
  unfold handle_subtract
  simp only [hp]

theorem handle_add_of_parse_bad {body : Option Json}
    (s : Store) (hp : parse_add body = .badRequest) :
    handle_add s body = ⟨.resp make_bad_request_response, s, []⟩ := by
  unfold handle_add
  simp only [hp]

theorem handle_subtract_of_parse_bad {body : Option Json}
    (s : Store) (hp : parse_add body = .badRequest) :
    handle_subtract s body = ⟨.resp make_bad_request_response, s, []⟩ := by
  unfold handle_subtract
  simp only [hp]

/-! ## Claim theorems -/

/-- C1: for an active account, `reserve(id, amount)` (the body of
`handle_subtract`) succeeds exactly when `hold + amount ≤ balance` held
before the operation; on success `hold` becomes `hold + amount` (and
`balance` is untouched); on violation it answers
`OperationNotPossible('balance too low')` (status 403) and the store is
completely unchanged. -/
theorem claim_C1_reserve (s : Store) (u : Json) (v : Int) (a : Account)
    (hu : s u = some a) (hactive : a.status = true) (hv : 0 ≤ v) :
    ((a.hold + v ≤ a.balance →
        (reserve_op s u v).outcome = .resp make_ok_response ∧
        (reserve_op s u v).store u = some { a with hold := a.hold + v } ∧
        ∀ u', u' ≠ u → (reserve_op s u v).store u' = s u') ∧
     (¬ (a.hold + v ≤ a.balance) →
        (reserve_op s u v).outcome =
          .resp (make_operation_not_possible_response "balance too low") ∧
        ∀ u', (reserve_op s u v).store u' = s u')) := by
  constructor
  · intro hle
    have hsp : subtraction_is_possible a.balance a.hold v = true := by
      exact decide_eq_true hle
    rw [reserve_op_of_ok v hu hactive hsp]
    refine ⟨rfl, ?_, ?_⟩
    · show update_user_data s u [.hold (a.hold + v)] u = some { a with hold := a.hold + v }
      rw [update_user_data_self, hu]
      rfl
    · intro u' hne
      exact update_user_data_other s u _ hne
  · intro hgt
    have hsp : subtraction_is_possible a.balance a.hold v = false := by
      exact decide_eq_false hgt
    rw [reserve_op_of_low v hu hactive hsp]
    exact ⟨rfl, fun u' => rfl⟩

/-- C1 witness: the spec scenario `{balance:100, hold:90, active:true}`,
`reserve(id, 20)` answers 403 ("balance too low") and the account is
unchanged. -/
theorem claim_C1_reserve_witness :
    (reserve_op demoStore (.str "bob") 20).outcome =
      .resp (make_operation_not_possible_response "balance too low") ∧
    (reserve_op demoStore (.str "bob") 20).store (.str "bob") =
      some ⟨"Bob", 100, 90, true⟩ := by
  have h := claim_C1_reserve demoStore (.str "bob") 20 ⟨"Bob", 100, 90, true⟩
    rfl rfl (by decide)
  have h2 := h.2 (by decide)
  exact ⟨h2.1, (h2.2 (.str "bob")).trans rfl⟩

/-- C4: `credit(id, amount)` (the body of `handle_add`) answers
`UserNotFound` when the uuid is absent, `OperationNotPossible('status is
inactive')` when the account is inactive (both leaving the store
untouched and persisting nothing), and otherwise adds `amount` to
`balance` (leaving `hold` untouched) and persists the result. -/
theorem claim_C4_credit (s : Store) (u : Json) (v : Int) (hv : 0 ≤ v) :
    (s u = none →
      (credit_op s u v).outcome = .resp (make_user_not_found_response "uuid not found") ∧
      (credit_op s u v).store = s ∧ (credit_op s u v).updates = []) ∧
    (∀ a, s u = some a → a.status = false →
      (credit_op s u v).outcome =
        .resp (make_operation_not_possible_response "status is inactive") ∧
      (credit_op s u v).store = s ∧ (credit_op s u v).updates = []) ∧
    (∀ a, s u = some a → a.status = true →
      (credit_op s u v).outcome = .resp make_ok_response ∧
      (credit_op s u v).store u = some { a with balance := a.balance + v } ∧
      (credit_op s u v).updates = [(u, [.balance (a.balance + v)])]) := by
  refine ⟨?_, ?_, ?_⟩
  · intro hu
    rw [credit_op_of_none v hu]
    exact ⟨rfl, rfl, rfl⟩
  · intro a hu ha
    rw [credit_op_of_inactive v hu ha]
    exact ⟨rfl, rfl, rfl⟩
  · intro a hu ha
    rw [credit_op_of_ok v hu ha]
    refine ⟨rfl, ?_, rfl⟩
    show update_user_data s u [.balance (a.balance + v)] u =
      some { a with balance := a.balance + v }
    rw [update_user_data_self, hu]
    rfl

/-- C4 witness: the spec scenario `{balance:100, hold:0, active:true}`,
`credit(id, 50)` succeeds and the balance becomes 150. -/
theorem claim_C4_credit_witness :
    (credit_op demoStore (.str "carol") 50).outcome = .resp make_ok_response ∧
    (credit_op demoStore (.str "carol") 50).store (.str "carol") =
      some ⟨"Carol", 150, 0, true⟩ := by
  have h := (claim_C4_credit demoStore (.str "carol") 50 (by decide)).2.2
    ⟨"Carol", 100, 0, true⟩ rfl rfl
  exact ⟨h.1, h.2.1⟩

/-- C5: one settlement tick (one successful iteration of
`auto_update_hold`, whose single bulk `UPDATE` statement is modelled as
the one store-level function `settlement_tick`) maps every stored
account to `balance := balance - hold`, `hold := 0` (name and status
untouched), leaves absent keys absent, and performs exactly one tick. -/
theorem claim_C5_settlement (s : Store) (u : Json) (a : Account) (hu : s u = some a) :
    (auto_update_hold [true] s).1 u =
      some { name := a.name, balance := a.balance - a.hold, hold := 0, status := a.status } ∧
    (auto_update_hold [true] s).2.1 = 1 ∧
    (∀ u', s u' = none → (auto_update_hold [true] s).1 u' = none) := by
  have h1 : (auto_update_hold [true] s).1 = settlement_tick s := rfl
  refine ⟨?_, rfl, ?_⟩
  · rw [h1]
    show (s u).map _ = _
    rw [hu]
    rfl
  · intro u' hu'
    rw [h1]
    show (s u').map _ = none
    rw [hu']
    rfl

/-- C5 witness: the spec scenario `{balance:150, hold:30}` becomes
`{balance:120, hold:0}` after one tick. -/
theorem claim_C5_settlement_witness :
    (auto_update_hold [true] demoStore).1 (.str "alice") =
      some ⟨"Alice", 120, 0, true⟩ := by
  have h := claim_C5_settlement demoStore (.str "alice") ⟨"Alice", 150, 30, true⟩ rfl
  exact h.1

/-- C7: a successful credit performs exactly one persisted update,
setting only `balance` on only the requested uuid; a successful reserve
performs exactly one persisted update, setting only `hold` on only the
requested uuid; `name` and `status` (and the untouched one of
`balance`/`hold`) keep their values, and every other key of the store is
unchanged. -/
theorem claim_C7_frame (s : Store) (u : Json) (v : Int) (a : Account)
    (hu : s u = some a) (hactive : a.status = true) :
    ((credit_op s u v).updates = [(u, [.balance (a.balance + v)])] ∧
     (credit_op s u v).store u =
       some { name := a.name, balance := a.balance + v, hold := a.hold, status := a.status } ∧
     ∀ u', u' ≠ u → (credit_op s u v).store u' = s u') ∧
    (a.hold + v ≤ a.balance →
     (reserve_op s u v).updates = [(u, [.hold (a.hold + v)])] ∧
     (reserve_op s u v).store u =
       some { name := a.name, balance := a.balance, hold := a.hold + v, status := a.status } ∧
     ∀ u', u' ≠ u → (reserve_op s u v).store u' = s u') := by
  constructor
  · rw [credit_op_of_ok v hu hactive]
    refine ⟨rfl, ?_, ?_⟩
    · show update_user_data s u [.balance (a.balance + v)] u = _
      rw [update_user_data_self, hu]
      rfl
    · intro u' hne
      exact update_user_data_other s u _ hne
  · intro hle
    rw [reserve_op_of_ok v hu hactive (decide_eq_true hle)]
    refine ⟨rfl, ?_, ?_⟩
    · show update_user_data s u [.hold (a.hold + v)] u = _
      rw [update_user_data_self, hu]
      rfl
    · intro u' hne
      exact update_user_data_other s u _ hne

/-- C7 witness: crediting 50 to `carol {100, 0}` writes exactly
`[(carol, [balance := 150])]` and other keys stay put. -/
theorem claim_C7_frame_witness :
    (credit_op demoStore (.str "carol") 50).updates =
      [((.str "carol" : Json), [FieldUpd.balance 150])] ∧
    (credit_op demoStore (.str "carol") 50).store (.str "alice") =
      some ⟨"Alice", 150, 30, true⟩ := by
  have h := (claim_C7_frame demoStore (.str "carol") 50 ⟨"Carol", 100, 0, true⟩ rfl rfl).1
  exact ⟨h.1, (h.2.2 (.str "alice") (by decide)).trans rfl⟩

/-- C2: along every event trace, the `locked_rows` registry satisfies
its contract (`RegInv`: no two live entries for one key, a live entry's
counter equals the number of in-flight operations on its key and is
positive, a key with no entry has no in-flight operation, and all
in-flight operations on a key share the lock object of its single live
entry), and every `finally` block — reached on success, `UserNotFound`
and `OperationNotPossible` alike — decrements the counter by exactly
one and deletes the entry exactly when the counter returns to zero
(`ExitStepOk`). -/
theorem claim_C2_registry (tr : List RegEvent) :
    RegInv (regRun tr) ∧ ExitStepOk (regRun tr) :=
  ⟨regRun_inv tr, exitStepOk_of_inv (regRun_inv tr)⟩

/-- C3: under every interleaving of N concurrent `credit(id, 1)`
requests against one existing active account with initial balance B
(and no settlement tick), at most one request is ever inside the
per-uuid lock, and once all requests have completed the balance is
exactly `B + N`. -/
theorem claim_C3_serialized (B : Int) (N : Nat) (tr : List Nat) :
    atMostOneHolder (crun B N tr) ∧
    ((crun B N tr).ops.all (fun p => p = .done) → (crun B N tr).balance = B + N) := by
  obtain ⟨hlen, hbal, hone, _⟩ := crun_inv B N tr
  refine ⟨hone, ?_⟩
  intro hall
  have hfin : countFinished (crun B N tr) = N := by
    unfold countFinished
    rw [List.filter_eq_self.mpr ?_, hlen]
    intro p hp
    have hpd : p = .done := by simpa using List.all_eq_true.mp hall p hp
    rw [hpd]
    rfl
  rw [hbal, hfin]

/-- C3 witness: two serialized credits of 1 on balance 5 end at 7. -/
theorem claim_C3_serialized_witness :
    (crun 5 2 [0, 0, 0, 0, 1, 1, 1, 1]).balance = 5 + 2 := by
  exact (claim_C3_serialized 5 2 [0, 0, 0, 0, 1, 1, 1, 1]).2 (by decide)

/-- C6 counterexample: the claim "`auto_update_hold` logs a failed tick
and retries on the next interval, never crashing and never skipping
subsequent ticks" is false: the loop body has no `try`/`except`, so a
store error escapes the coroutine (crash flag `true`) and the following
scheduled, succeeding tick is never applied (0 ticks applied instead
of 1). -/
theorem claim_C6_counterexample :
    ¬ (∀ (ticks : List Bool) (s : Store),
        (auto_update_hold ticks s).2.2 = false ∧
        (auto_update_hold ticks s).2.1 = ticks.count true) := by
  intro h
  have hc := (h [false, true] demoStore).1
  exact absurd hc (by decide)

/-- C6 amended: when a tick's store call raises, the exception
propagates out of `auto_update_hold` (which has no `try`/`except` and
no logging): exactly the ticks before the failure are applied, the
loop terminates with the escaped exception, and all later scheduled
ticks are skipped. -/
theorem claim_C6_amended : ∀ (pre rest : List Bool) (s : Store),
    (∀ b ∈ pre, b = true) →
    auto_update_hold (pre ++ false :: rest) s =
      (settlement_tick^[pre.length] s, pre.length, true) := by
  intro pre
  induction pre with
  | nil =>
    intro rest s _
    simp [auto_update_hold]
  | cons b tl ih =>
    intro rest s hpre
    have hb : b = true := hpre b (List.mem_cons_self b tl)
    subst hb
    have htl : ∀ x ∈ tl, x = true := fun x hx => hpre x (List.mem_cons_of_mem _ hx)
    rw [List.cons_append]
    show (let r := auto_update_hold (tl ++ false :: rest) (settlement_tick s)
          ((r.1, r.2.1 + 1, r.2.2) : Store × Nat × Bool)) = _
    rw [ih rest (settlement_tick s) htl]
    show ((settlement_tick^[tl.length] (settlement_tick s), tl.length + 1, true) :
      Store × Nat × Bool) = _
    rw [← Function.iterate_succ_apply]
    rfl

/-- C6 amended witness: schedule `[true, false]` applies the first tick,
then the failing second tick ends the loop. -/
theorem claim_C6_amended_witness :
    auto_update_hold [true, false] demoStore =
      (settlement_tick^[1] demoStore, 1, true) := by
  have h := claim_C6_amended [true] [] demoStore (by simp)
  simpa using h

/-- C8 counterexample: the claim "a `value` that is not an integer is
rejected with 400 before any store access" fails for the JSON boolean
`true`: Python's `bool` is a subclass of `int`, so
`assert isinstance(value, int) and value >= 0` passes for
`value = true`, the handler reaches the store, succeeds with 200, and
adds `True == 1` to the balance. -/
theorem claim_C8_counterexample :
    (handle_add demoStore addTrueBody).outcome ≠ .resp make_bad_request_response ∧
    (handle_add demoStore addTrueBody).outcome = .resp make_ok_response ∧
    (handle_add demoStore addTrueBody).store (.str "alice") =
      some ⟨"Alice", 151, 30, true⟩ := by
  refine ⟨by decide, rfl, rfl⟩

/-- C8 amended: for every `/api/add` or `/api/subtract` body of the
form `{"addition": {...}}` whose `value` field is missing, is neither a
JSON integer nor a JSON boolean (Python's `isinstance(value, int)`
accepts booleans, treating `true` as 1 and `false` as 0), or is
negative, the handler returns the 400 bad-request response; the store
is untouched, no update is issued, and the outcome is the same for
every store, i.e. the rejection precedes any store access. -/
theorem claim_C8_amended (s : Store) (fields : JsonObj)
    (h : (Json.obj fields).getItem "value" = .keyError ∨
         (∃ v, (Json.obj fields).getItem "value" = .ok v ∧
           (isPyInt v = false ∨ pyIntVal v < 0))) :
    handle_add s (some (.obj (.cons "addition" (.obj fields) .nil))) =
      ⟨.resp make_bad_request_response, s, []⟩ ∧
    handle_subtract s (some (.obj (.cons "addition" (.obj fields) .nil))) =
      ⟨.resp make_bad_request_response, s, []⟩ := by
  have hp : parse_add (some (.obj (.cons "addition" (.obj fields) .nil))) = .badRequest := by
    simp only [parse_add]
    rw [show (Json.obj (.cons "addition" (.obj fields) .nil)).getItem "addition" =
      .ok (.obj fields) from rfl]
    cases huu : (Json.obj fields).getItem "uuid" with
    | typeError =>
      exfalso
      cases hl : fields.lookup "uuid" <;> simp [Json.getItem, hl] at huu
    | keyError => simp only [huu]
    | ok uuidv =>
      simp only [huu]
      rcases h with hkey | ⟨v, hv, hbad⟩
      · simp only [hkey]
      · simp only [hv]
        rcases hbad with hb | hb
        · rw [if_neg (by rw [Bool.and_eq_true]; rintro ⟨h1, _⟩; rw [hb] at h1; cases h1)]
        · rw [if_neg (by
            rw [Bool.and_eq_true]
            rintro ⟨_, h2⟩
            rw [decide_eq_true_eq] at h2
            omega)]
  exact ⟨handle_add_of_parse_bad s hp, handle_subtract_of_parse_bad s hp⟩

/-- C8 amended witness: the body `{"addition": {"uuid": "alice"}}`
(missing `value`) gets the 400 response with the store untouched. -/
theorem claim_C8_amended_witness :
    handle_add demoStore missingValueBody =
      ⟨.resp make_bad_request_response, demoStore, []⟩ := by
  exact (claim_C8_amended demoStore (.cons "uuid" (.str "alice") .nil) (Or.inl rfl)).1

theorem credit_op_http {s : Store} {u : Json} {v : Int} {r : Response}
    (h : (credit_op s u v).outcome = .resp r) : r.httpStatus = 200 := by
  cases hsu : s u with
  | none =>
    rw [credit_op_of_none v hsu] at h
    replace h : HandlerOutcome.resp (make_user_not_found_response "uuid not found") =
      .resp r := h
    injection h with hr
    rw [← hr]
    rfl
  | some a =>
    cases hst : a.status with
    | false =>
      rw [credit_op_of_inactive v hsu hst] at h
      replace h : HandlerOutcome.resp
        (make_operation_not_possible_response "status is inactive") = .resp r := h
      injection h with hr
      rw [← hr]
      rfl
    | true =>
      rw [credit_op_of_ok v hsu hst] at h
      replace h : HandlerOutcome.resp make_ok_response = .resp r := h
      injection h with hr
      rw [← hr]
      rfl

theorem reserve_op_http {s : Store} {u : Json} {v : Int} {r : Response}
    (h : (reserve_op s u v).outcome = .resp r) : r.httpStatus = 200 := by
  cases hsu : s u with
  | none =>
    rw [reserve_op_of_none v hsu] at h
    replace h : HandlerOutcome.resp (make_user_not_found_response "uuid not found") =
      .resp r := h
    injection h with hr
    rw [← hr]
    rfl
  | some a =>
    cases hst : a.status with
    | false =>
      rw [reserve_op_of_inactive v hsu hst] at h
      replace h : HandlerOutcome.resp
        (make_operation_not_possible_response "status is inactive") = .resp r := h
      injection h with hr
      rw [← hr]
      rfl
    | true =>
      cases hsp : subtraction_is_possible a.balance a.hold v with
      | false =>
        rw [reserve_op_of_low v hsu hst hsp] at h
        replace h : HandlerOutcome.resp
          (make_operation_not_possible_response "balance too low") = .resp r := h
        injection h with hr
        rw [← hr]
        rfl
      | true =>
        rw [reserve_op_of_ok v hsu hst hsp] at h
        replace h : HandlerOutcome.resp make_ok_response = .resp r := h
        injection h with hr
        rw [← hr]
        rfl

theorem handle_add_of_parse_te {body : Option Json}
    (s : Store) (hp : parse_add body = .typeError) :
    handle_add s body = ⟨.typeError, s, []⟩ := by
  unfold handle_add
  simp only [hp]

theorem handle_subtract_of_parse_te {body : Option Json}
    (s : Store) (hp : parse_add body = .typeError) :
    handle_subtract s body = ⟨.typeError, s, []⟩ := by
  unfold handle_subtract
  simp only [hp]

theorem handle_add_http {s : Store} {body : Option Json} {r : Response}
    (h : (handle_add s body).outcome = .resp r) : r.httpStatus = 200 := by
  cases hp : parse_add body with
  | typeError =>
    rw [handle_add_of_parse_te s hp] at h
    replace h : HandlerOutcome.typeError = .resp r := h
    cases h
  | badRequest =>
    rw [handle_add_of_parse_bad s hp] at h
    replace h : HandlerOutcome.resp make_bad_request_response = .resp r := h
    injection h with hr
    rw [← hr]
    rfl
  | ok uuid value =>
    rw [handle_add_of_parse_ok s hp] at h
    exact credit_op_http h

theorem handle_subtract_http {s : Store} {body : Option Json} {r : Response}
    (h : (handle_subtract s body).outcome = .resp r) : r.httpStatus = 200 := by
  cases hp : parse_add body with
  | typeError =>
    rw [handle_subtract_of_parse_te s hp] at h
    replace h : HandlerOutcome.typeError = .resp r := h
    cases h
  | badRequest =>
    rw [handle_subtract_of_parse_bad s hp] at h
    replace h : HandlerOutcome.resp make_bad_request_response = .resp r := h
    injection h with hr
    rw [← hr]
    rfl
  | ok uuid value =>
    rw [handle_subtract_of_parse_ok s hp] at h
    exact reserve_op_http h

theorem handle_status_http {s : Store} {body : Option Json} {r : Response}
    (h : handle_status s body = .resp r) : r.httpStatus = 200 := by
  cases body with
  | none =>
    replace h : HandlerOutcome.resp make_bad_request_response = .resp r := h
    injection h with hr
    rw [← hr]
    rfl
  | some j =>
    unfold handle_status at h
    cases hga : j.getItem "addition" with
    | typeError =>
      simp only [hga] at h
      cases h
    | keyError =>
      simp only [hga] at h
      injection h with hr
      rw [← hr]
      rfl
    | ok ad =>
      simp only [hga] at h
      cases hgu : ad.getItem "uuid" with
      | typeError =>
        simp only [hgu] at h
        cases h
      | keyError =>
        simp only [hgu] at h
        injection h with hr
        rw [← hr]
        rfl
      | ok uuid =>
        simp only [hgu] at h
        cases hsu : get_user_data_by_uuid s uuid with
        | none =>
          simp only [hsu] at h
          injection h with hr
          rw [← hr]
          rfl
        | some a =>
          simp only [hsu] at h
          injection h with hr
          rw [← hr]
          rfl

/-- C9: every response any handler returns — including the failure
responses whose body `status` field says 400, 403 or 404 — is sent with
transport-level HTTP status 200 (`web.json_response` is always called
without a `status` argument); the error code lives only in the JSON
body. -/
theorem claim_C9_http200 (s : Store) (body : Option Json) (r : Response)
    (h : (handle_add s body).outcome = .resp r ∨
         (handle_subtract s body).outcome = .resp r ∨
         handle_status s body = .resp r ∨
         handle_ping = .resp r) :
    r.httpStatus = 200 := by
  rcases h with h | h | h | h
  · exact handle_add_http h
  · exact handle_subtract_http h
  · exact handle_status_http h
  · replace h : HandlerOutcome.resp make_ok_response = .resp r := h
    injection h with hr
    rw [← hr]
    rfl

/-- C9 witness: a 404 `handle_status` response for an unknown uuid is
transported with HTTP status 200. -/
theorem claim_C9_http200_witness :
    (make_user_not_found_response "uuid not found").httpStatus = 200 := by
  exact claim_C9_http200 demoStore
    (some (.obj (.cons "addition" (.obj (.cons "uuid" (.str "nobody") .nil)) .nil)))
    (make_user_not_found_response "uuid not found")
    (Or.inr (Or.inr (Or.inl rfl)))

/-- C10: syntactically valid JSON bodies whose top-level value (here
`null`) or whose `addition` field (here the number 5) is not an object
make `handle_status`, `handle_add` and `handle_subtract` raise an
uncaught `TypeError` instead of answering 400, because the parse only
catches `KeyError`, `JSONDecodeError` and `AssertionError`. -/
theorem claim_C10_typeError (s : Store) :
    handle_status s (some .null) = .typeError ∧
    (handle_add s (some .null)).outcome = .typeError ∧
    (handle_subtract s (some .null)).outcome = .typeError ∧
    handle_status s (some (.obj (.cons "addition" (.int 5) .nil))) = .typeError ∧
    (handle_add s (some (.obj (.cons "addition" (.int 5) .nil)))).outcome = .typeError ∧
    (handle_subtract s (some (.obj (.cons "addition" (.int 5) .nil)))).outcome =
      .typeError := by
  exact ⟨rfl, rfl, rfl, rfl, rfl, rfl⟩

end Tochka
